import Mathlib

/-!
Shallow embedding of the `aristeia` evolutionary-search engine
(src/src/population.rs, src/src/fitness.rs, src/src/operations.rs,
src/src/evolution.rs) and proofs about the frozen claims.

Modelling conventions, used throughout:
* `Agent<Gene>` (its module agent.rs is not among the given sources) is an
  ordered gene sequence; its content hash is abstracted as a parameter
  `hashFn : List Gene → ℕ`, since the code only ever consumes
  `agent.get_hash()`.
* `BTreeMap<isize, Agent>` is a key-sorted association list
  `List (ℤ × Agent Gene)`; iteration order of the Rust map is the ascending
  key order of the list. The population operations keep the list sorted.
* `HashSet<u64>` (the uniqueness register) is a `Finset ℕ`.
* A Rust function that can panic is modelled with `Option`: `none` is the
  panic.
* Randomness (`rand::thread_rng`) is modelled by passing the drawn value in
  as an argument; theorems carry the bound the generator guarantees
  (`gen_range(0, n)` yields a value `< n` and panics when `n = 0`).
* `u64` arithmetic wraps: sums are reduced `% 2 ^ 64` exactly where the Rust
  code adds `u64` values (release-profile wrapping semantics; in a debug
  profile the same inputs abort, so either way the mathematical sum is not
  returned once it exceeds `2 ^ 64 - 1`).
-/

set_option maxRecDepth 8000

namespace Aristeia

/-- An agent: an ordered sequence of genes (data model of agent.rs as the
spec describes it; only the gene list is ever consumed by this core). -/
structure Agent (Gene : Type) where
  genes : List Gene
deriving DecidableEq

/-- Insert-or-replace into a key-sorted association list: the model of
`BTreeMap::insert`. If the key is present its value is replaced, otherwise
the pair is placed at its ordered position. -/
def slInsert {α : Type} (k : ℤ) (v : α) : List (ℤ × α) → List (ℤ × α)
  | [] => [(k, v)]
  | p :: t =>
    if k < p.1 then (k, v) :: p :: t
    else if k = p.1 then (k, v) :: t
    else p :: slInsert k v t

/-- Remove a key from an association list: the model of `BTreeMap::remove`
(the removed value is read off with `List.lookup` beforehand). -/
def slErase {α : Type} (k : ℤ) (l : List (ℤ × α)) : List (ℤ × α) :=
  l.filter (fun q => decide (q.1 ≠ k))

/-- `Population<Gene>` (population.rs lines 10-15): the slot map, the
uniqueness register of content hashes, and the uniqueness flag. -/
structure Population (Gene : Type) where
  agents : List (ℤ × Agent Gene)
  register : Finset ℕ
  unique_agents : Bool
deriving DecidableEq

/-- `Population::new_empty` (population.rs lines 23-29). -/
def Population.new_empty {Gene : Type} (unique : Bool) : Population Gene :=
  { agents := [], register := ∅, unique_agents := unique }

/-- `Population::will_accept` (population.rs lines 115-120). -/
def Population.will_accept {Gene : Type} (hashFn : List Gene → ℕ)
    (p : Population Gene) (agent : Agent Gene) : Bool :=
  if p.unique_agents then !(decide (hashFn agent.genes ∈ p.register)) else true

/-- `Population::insert` (population.rs lines 71-79): in unique mode a hash
already registered drops the insert entirely; otherwise the hash is
registered and the agent overwrites whatever occupied the slot. Note that
the overwritten occupant's hash is NOT removed from the register. -/
def Population.insert {Gene : Type} (hashFn : List Gene → ℕ)
    (p : Population Gene) (score : ℤ) (agent : Agent Gene) : Population Gene :=
  if p.unique_agents then
    if hashFn agent.genes ∈ p.register then p
    else { p with register := Insert.insert (hashFn agent.genes) p.register,
                  agents := slInsert score agent p.agents }
  else { p with agents := slInsert score agent p.agents }

/-- `Population::remove` (population.rs lines 81-87): removes and returns
the occupant of the slot, unregistering its hash when uniqueness is on. -/
def Population.remove {Gene : Type} (hashFn : List Gene → ℕ)
    (p : Population Gene) (score : ℤ) : Population Gene × Option (Agent Gene) :=
  match p.agents.lookup score with
  | none => (p, none)
  | some a =>
    ({ p with agents := slErase score p.agents,
              register := if p.unique_agents then p.register.erase (hashFn a.genes)
                          else p.register }, some a)

/-- `Population::get` (population.rs lines 89-91). -/
def Population.get {Gene : Type} (p : Population Gene) (score : ℤ) :
    Option (Agent Gene) :=
  p.agents.lookup score

/-- `Population::get_agents` (population.rs lines 93-95). -/
def Population.get_agents {Gene : Type} (p : Population Gene) :
    List (ℤ × Agent Gene) :=
  p.agents

/-- `Population::len` (population.rs lines 97-99). -/
def Population.len {Gene : Type} (p : Population Gene) : ℕ :=
  p.agents.length

/-- `Population::cull_all_below` (population.rs lines 101-109):
`split_off(&score)` keeps exactly the entries with key `≥ score`; in unique
mode the register is cleared and rebuilt from the survivors. -/
def Population.cull_all_below {Gene : Type} (hashFn : List Gene → ℕ)
    (p : Population Gene) (score : ℤ) : Population Gene :=
  let kept := p.agents.filter (fun q => decide (score ≤ q.1))
  { p with agents := kept,
           register := if p.unique_agents then
               (kept.map (fun q => hashFn q.2.genes)).toFinset
             else p.register }

/-- `Population::contains_score` (population.rs lines 111-113). -/
def Population.contains_score {Gene : Type} (p : Population Gene) (score : ℤ) :
    Bool :=
  (p.agents.lookup score).isSome

/-- `Population::get_scores` (population.rs lines 122-124): the ascending
slot list. -/
def Population.get_scores {Gene : Type} (p : Population Gene) : List ℤ :=
  p.agents.map Prod.fst

/-- `Population::get_random_score` (population.rs lines 126-129):
`rng.gen_range(0, self.len())` panics when the population is empty
(`gen_range` with an empty range aborts); otherwise a uniformly drawn index
`< len` selects a slot. The draw is modelled by the seed `j`, reduced into
the valid range exactly as the generator's output is. -/
def Population.get_random_score {Gene : Type} (p : Population Gene) (j : ℕ) :
    Option ℤ :=
  if p.len = 0 then none else p.get_scores[j % p.len]?

/-- One public mutating operation of `Population`, for stating the
uniqueness invariant over arbitrary operation sequences. -/
inductive POp (Gene : Type) where
  | insert (slot : ℤ) (agent : Agent Gene)
  | remove (slot : ℤ)
  | cullAllBelow (slot : ℤ)
deriving DecidableEq

/-- Apply one operation to a population. -/
def applyOp {Gene : Type} (hashFn : List Gene → ℕ) (p : Population Gene) :
    POp Gene → Population Gene
  | POp.insert s a => p.insert hashFn s a
  | POp.remove s => (p.remove hashFn s).1
  | POp.cullAllBelow s => p.cull_all_below hashFn s

/-- Apply a sequence of operations, first element first. -/
def applyOps {Gene : Type} (hashFn : List Gene → ℕ) (ops : List (POp Gene))
    (p : Population Gene) : Population Gene :=
  ops.foldl (applyOp hashFn) p

/-! ### Binary64 model

`rate_to_number` and `Selection.proportion` use Rust `f64` arithmetic. A
non-negative binary64 value is modelled as a dyadic `m * 2 ^ e` with the
`fround` operation performing IEEE-754 round-to-nearest, ties-to-even at 53
significant bits (normal range only: the proportions and population sizes
involved are far from the subnormal and overflow thresholds). All
computation is on `ℕ`/`ℤ` so concrete instances evaluate by `decide`. -/

/-- Fueled floor-log2 helper (structural recursion so the kernel evaluates
it); `log2fuel n n` is `⌊log₂ n⌋` for `n ≥ 1`. -/
def log2fuel : ℕ → ℕ → ℕ
  | 0, _ => 0
  | fuel + 1, n => if n < 2 then 0 else log2fuel fuel (n / 2) + 1

/-- `⌊log₂ n⌋` for `n ≥ 1` (0 at 0). -/
def natLog2 (n : ℕ) : ℕ :=
  log2fuel n n

/-- Is the rational `a / b` strictly below `2 ^ k`? (`a`, `b` naturals,
`k` a possibly negative exponent.) -/
def ratLtPow2 (a b : ℕ) (k : ℤ) : Bool :=
  if 0 ≤ k then decide (a < b * 2 ^ k.toNat) else decide (a * 2 ^ (-k).toNat < b)

/-- `⌊log₂ (a / b)⌋` for `a, b ≥ 1`. -/
def ratFloorLog2 (a b : ℕ) : ℤ :=
  let k0 : ℤ := (natLog2 a : ℤ) - (natLog2 b : ℤ)
  if ratLtPow2 a b k0 then k0 - 1 else k0

/-- Round the rational `a / b` to the nearest integer, ties to even. -/
def rhe (a b : ℕ) : ℕ :=
  let i := a / b
  let r := a % b
  if 2 * r < b then i else if b < 2 * r then i + 1 else if i % 2 = 0 then i else i + 1

/-- A non-negative binary64 value `m * 2 ^ e`. -/
structure F64 where
  m : ℕ
  e : ℤ
deriving DecidableEq

/-- Round a positive rational `a / b` to binary64 (53-bit significand,
round-to-nearest, ties-to-even). -/
def froundPos (a b : ℕ) : F64 :=
  let e : ℤ := ratFloorLog2 a b - 52
  if 0 ≤ e then { m := rhe a (b * 2 ^ e.toNat), e := e }
  else { m := rhe (a * 2 ^ (-e).toNat) b, e := e }

/-- Round a non-negative rational `a / b` to binary64. -/
def fround (a b : ℕ) : F64 :=
  if a = 0 ∨ b = 0 then { m := 0, e := 0 } else froundPos a b

/-- `usize as f64`: exact below `2 ^ 53`, correctly rounded above. -/
def F64.ofNat (n : ℕ) : F64 :=
  fround n 1

/-- Correctly rounded binary64 multiplication: round the exact product's
significand, the power-of-two scaling being exact. -/
def f64mul (x y : F64) : F64 :=
  let r := fround (x.m * y.m) 1
  { m := r.m, e := r.e + x.e + y.e }

/-- `as usize` on a non-negative f64: truncation toward zero (the saturation
bound `usize::MAX` is never approached by the quantities involved here). -/
def F64.toUsizeTrunc (x : F64) : ℕ :=
  if 0 ≤ x.e then x.m * 2 ^ x.e.toNat else x.m / 2 ^ (-x.e).toNat

/-- The exact rational value of a modelled binary64 (statement-side only). -/
def F64.toRat (x : F64) : ℚ :=
  (x.m : ℚ) * (2 : ℚ) ^ x.e

/-! ### Selection and culling (operations.rs) -/

/-- `rate_to_number` (operations.rs lines 362-372): below the preferred
minimum return the whole population; otherwise truncate the f64 product
`population as f64 * rate`, clamped below by the preferred minimum. -/
def rate_to_number (population : ℕ) (rate : F64) (preferred_minimum : ℕ) : ℕ :=
  if population < preferred_minimum then population
  else
    let number := (f64mul (F64.ofNat population) rate).toUsizeTrunc
    if number < preferred_minimum then preferred_minimum else number

/-- `SelectionType` (operations.rs lines 34-39). -/
inductive SelectionType where
  | RandomAny
  | HighestScore
  | LowestScore
deriving DecidableEq

/-- `Selection` (operations.rs lines 42-47). -/
structure Selection where
  selection_type : SelectionType
  proportion : F64
  preferred_minimum : ℕ
deriving DecidableEq

/-- `Selection::count` (operations.rs lines 89-91). -/
def Selection.count {Gene : Type} (sel : Selection) (p : Population Gene) : ℕ :=
  rate_to_number p.len sel.proportion sel.preferred_minimum

/-- Modelled from the spec: `Population::cull_all_above` is called by
`cull_agents` (operations.rs line 206) but the population.rs revision in
src/ does not define it; per spec §4.4 the Highest-score cull removes all
agents above the boundary slot, mirroring `cull_all_below` (register rebuilt
from survivors in unique mode). -/
def Population.cull_all_above {Gene : Type} (hashFn : List Gene → ℕ)
    (p : Population Gene) (score : ℤ) : Population Gene :=
  let kept := p.agents.filter (fun q => decide (q.1 ≤ score))
  { p with agents := kept,
           register := if p.unique_agents then
               (kept.map (fun q => hashFn q.2.genes)).toFinset
             else p.register }

/-- `cull_agents` (operations.rs lines 193-210): when the selection count
reaches the population size the cull is a no-op (early return); otherwise
Lowest-score culls below the slot at ascending position `count`,
Highest-score above it, and RandomAny panics (`none`). -/
def cull_agents {Gene : Type} (hashFn : List Gene → ℕ) (p : Population Gene)
    (sel : Selection) : Option (Population Gene) :=
  let keys := p.get_scores
  let cull_number := sel.count p
  if h : keys.length ≤ cull_number then some p
  else
    match sel.selection_type with
    | SelectionType.LowestScore =>
        some (p.cull_all_below hashFn (keys.get ⟨cull_number, by omega⟩))
    | SelectionType.HighestScore =>
        some (p.cull_all_above hashFn (keys.get ⟨cull_number, by omega⟩))
    | SelectionType.RandomAny => none

/-- `cull_lowest_agents` (operations.rs lines 347-360): the standalone
lowest-score cull used by the orchestration layer. -/
def cull_lowest_agents {Gene : Type} (hashFn : List Gene → ℕ)
    (p : Population Gene) (rate : F64) (preferred_minimum : ℕ) :
    Population Gene :=
  let keys := p.get_scores
  let cull_number := rate_to_number keys.length rate preferred_minimum
  if h : keys.length ≤ cull_number then p
  else p.cull_all_below hashFn (keys.get ⟨cull_number, by omega⟩)

/-! ### Fitness layer (fitness.rs)

`Score` is `u64`; scores are modelled as `ℕ` with sums reduced `% 2 ^ 64`
where the Rust code adds `u64` values. The `HashMap<u64, Score>` cache is an
association list over hashes (only `contains_key`, indexing and `insert` of
absent keys are used, so list order is immaterial). The scoring function's
`ScoreError { details }` is an `Except String` error. -/

/-- `2 ^ 64`, the wrap modulus of Rust `u64` arithmetic. -/
def u64size : ℕ :=
  2 ^ 64

/-- `GeneralScoreProvider` (fitness.rs lines 39-48). -/
structure GeneralScoreProvider (Gene Data : Type) where
  scoring_function : Agent Gene → Data → Except String ℕ
  offset : ℕ
  score_cache : List (ℕ × ℕ)

/-- `GeneralScoreProvider::evaluate_scores` (fitness.rs lines 63-81): keep
already-cached agents as-is; otherwise invoke the scoring function, caching
and keeping on success and silently dropping the agent on error. Returns the
updated provider (Rust mutates `self`) and the surviving agents in order. -/
def GeneralScoreProvider.evaluate_scores {Gene Data : Type}
    (hashFn : List Gene → ℕ) (sp : GeneralScoreProvider Gene Data)
    (agents : List (Agent Gene)) (data : Data) :
    GeneralScoreProvider Gene Data × List (Agent Gene) :=
  match agents with
  | [] => (sp, [])
  | agent :: rest =>
    if (sp.score_cache.lookup (hashFn agent.genes)).isSome then
      let r := sp.evaluate_scores hashFn rest data
      (r.1, agent :: r.2)
    else
      match sp.scoring_function agent data with
      | Except.ok s =>
        let sp2 := { sp with score_cache := (hashFn agent.genes, s) :: sp.score_cache }
        let r := sp2.evaluate_scores hashFn rest data
        (r.1, agent :: r.2)
      | Except.error _ => sp.evaluate_scores hashFn rest data

/-- The jitter arithmetic of `get_score` (fitness.rs lines 89-94 and
100-106): `score = f + j` in wrapping `u64` arithmetic, floored to slot 0
when it does not exceed the provider offset. -/
def jitterScore (off f j : ℕ) : ℕ :=
  let s := (f + j) % u64size
  if s ≤ off then 0 else s - off

/-- `GeneralScoreProvider::get_score` (fitness.rs lines 83-107). The drawn
jitter `rng.gen_range(0, self.offset * 2)` is passed in as `j` (theorems
assume `j < (2 * offset) % 2 ^ 64`, the generator's guarantee);
`gen_range` panics (`none`) when its range `self.offset * 2` wraps to 0.
On a cache miss the scoring result is `.unwrap()`ed: an error is a panic
(`none`), otherwise the true fitness is cached and the jittered slot
returned. -/
def GeneralScoreProvider.get_score {Gene Data : Type}
    (hashFn : List Gene → ℕ) (sp : GeneralScoreProvider Gene Data)
    (agent : Agent Gene) (data : Data) (j : ℕ) :
    Option (GeneralScoreProvider Gene Data × ℕ) :=
  if (2 * sp.offset) % u64size = 0 then none
  else
    match sp.score_cache.lookup (hashFn agent.genes) with
    | some f => some (sp, jitterScore sp.offset f j)
    | none =>
      match sp.scoring_function agent data with
      | Except.ok f =>
        some ({ sp with score_cache := (hashFn agent.genes, f) :: sp.score_cache },
              jitterScore sp.offset f j)
      | Except.error _ => none

/-- The true fitness `get_score` works from: the cached value if present,
otherwise the scoring function's successful result (statement-side
vocabulary for the claims about `get_score`). -/
def fitnessOf {Gene Data : Type} (hashFn : List Gene → ℕ)
    (sp : GeneralScoreProvider Gene Data) (agent : Agent Gene) (data : Data) :
    Option ℕ :=
  match sp.score_cache.lookup (hashFn agent.genes) with
  | some f => some f
  | none =>
    match sp.scoring_function agent data with
    | Except.ok f => some f
    | Except.error _ => none

/-! ### Seeding (population.rs `Population::new`, evolution.rs
`create_population`) -/

/-- The slot-collision fallback loop of `Population::new` (population.rs
lines 47-56) and `create_population` (evolution.rs lines 108-117): while the
candidate slot is occupied and non-zero, decrement it; stop at a free slot
or at slot 0. `occ` is the set of occupied slots. -/
def resolve_slot (occ : Finset ℤ) (score : ℤ) : ℤ :=
  if h0 : score = 0 then score
  else if hocc : score ∈ occ then resolve_slot occ (score - 1)
  else score
termination_by (occ.filter (fun k => k ≤ score)).card
decreasing_by
  apply Finset.card_lt_card
  constructor
  · intro x hx
    simp only [Finset.mem_filter] at hx ⊢
    exact ⟨hx.1, by omega⟩
  · intro hsub
    have hmem := hsub (Finset.mem_filter.mpr ⟨hocc, le_refl score⟩)
    simp only [Finset.mem_filter] at hmem
    omega

/-- `Population::new` (population.rs lines 31-63): seed from a stream of
freshly random agents (`agentsIn` stands for the `start_size` draws of
`Agent::new`); each accepted agent's slot is the collision-resolved value of
its score index. -/
def Population.new {Gene Data : Type} (hashFn : List Gene → ℕ)
    (agentsIn : List (Agent Gene)) (unique : Bool) (data : Data)
    (get_score_index : Agent Gene → Data → ℤ) : Population Gene :=
  agentsIn.foldl
    (fun pop agent =>
      if pop.will_accept hashFn agent then
        pop.insert hashFn (resolve_slot pop.get_scores.toFinset (get_score_index agent data)) agent
      else pop)
    (Population.new_empty unique)

/-! ### Evolution orchestration (evolution.rs)

evolution.rs imports `mutate_some_agents`, `mate_alpha_agents`,
`mate_some_agents` and a two-argument `cull_lowest_agents` from
operations.rs, but the operations.rs revision in src/ exports a different
generation of that API (`mutate_agents`/`crossover_agents` over `Selection`
values and a three-argument `cull_lowest_agents`); the operator bodies
evolution.rs links against are therefore not among the given sources.
Modelled from the spec (§4.4-§4.5): they are population transformers,
threaded through an explicit random-source state `σ` together with the
random agent constructor `Agent::new`; the claims settled here about
evolution.rs's control flow hold for every behaviour of these operators. -/

/-- Modelled from the spec: the external operator family and random agent
construction consumed by evolution.rs (see the section comment above). -/
structure EvolutionOps (Gene Data σ : Type) where
  new_agent : ℕ → σ → Agent Gene × σ
  mutate_some_agents :
    Population Gene → F64 → Data → (Agent Gene → Data → ℤ) → ℕ → σ →
      Population Gene × σ
  mate_alpha_agents :
    Population Gene → F64 → Data → (Agent Gene → Data → ℤ) → ℕ → ℕ → σ →
      Population Gene × σ
  mate_some_agents :
    Population Gene → F64 → Data → (Agent Gene → Data → ℤ) → ℕ → ℕ → σ →
      Population Gene × σ
  cull_lowest :
    Population Gene → F64 → Population Gene

/-- `create_population` (evolution.rs lines 93-124): seed `start_size`
random agents into a fresh non-unique population, resolving slot collisions
by decrement. -/
def create_population {Gene Data σ : Type} (hashFn : List Gene → ℕ)
    (E : EvolutionOps Gene Data σ) (start_size : ℕ) (data : Data)
    (number_of_genes : ℕ) (get_score_index : Agent Gene → Data → ℤ) (s : σ) :
    Population Gene × σ :=
  match start_size with
  | 0 => (Population.new_empty false, s)
  | n + 1 =>
    let r := create_population hashFn E n data number_of_genes get_score_index s
    let pop := r.1
    let a := E.new_agent number_of_genes r.2
    let agent := a.1
    (if pop.will_accept hashFn agent then
       pop.insert hashFn
         (resolve_slot pop.get_scores.toFinset (get_score_index agent data)) agent
     else pop, a.2)

/-- `run_iterations` (evolution.rs lines 126-153) with
`print_progress = false` (as in every call reached from the orchestration
entry points; the progress branch only prints): each cycle mutates 10%
(minimum 1), alpha-mates at proportion 0.2 (minimum 1, pool 2500), mates at
proportion 0.5 (minimum 1, pool 1000) and culls the lowest 2%. -/
def run_iterations {Gene Data σ : Type} (E : EvolutionOps Gene Data σ)
    (p : Population Gene) (iterations : ℕ) (data : Data)
    (get_score_index : Agent Gene → Data → ℤ) (s : σ) : Population Gene × σ :=
  match iterations with
  | 0 => (p, s)
  | n + 1 =>
    let r1 := E.mutate_some_agents p (fround 1 10) data get_score_index 1 s
    let r2 := E.mate_alpha_agents r1.1 (fround 1 5) data get_score_index 1 2500 r1.2
    let r3 := E.mate_some_agents r2.1 (fround 1 2) data get_score_index 1 1000 r2.2
    let p4 := E.cull_lowest r3.1 (fround 1 50)
    run_iterations E p4 n data get_score_index r3.2

/-- The seeding loop of `population_from_multilevel_sub_populations`
(evolution.rs lines 28-31): build `count` leaf populations, each seeded and
then advanced `iterations_on_each_population` cycles, in creation order. -/
def build_initial_populations {Gene Data σ : Type} (hashFn : List Gene → ℕ)
    (E : EvolutionOps Gene Data σ) (count : ℕ) (data : Data)
    (number_of_genes initial_population_size iterations : ℕ)
    (get_score_index : Agent Gene → Data → ℤ) (s : σ) :
    List (Population Gene) × σ :=
  match count with
  | 0 => ([], s)
  | n + 1 =>
    let c := create_population hashFn E initial_population_size data
      number_of_genes get_score_index s
    let r := run_iterations E c.1 iterations data get_score_index c.2
    let rest := build_initial_populations hashFn E n data number_of_genes
      initial_population_size iterations get_score_index r.2
    (r.1 :: rest.1, rest.2)

/-- The inner merge of `populations_from_existing_multillevel` (evolution.rs
lines 77-83): pop `spl` populations off the end of the vector
(`pop().unwrap()`: `none` models the panic on an empty vector) and union
their agents into the accumulator by slot-wise insertion. -/
def merge_group {Gene : Type} (hashFn : List Gene → ℕ) :
    ℕ → List (Population Gene) → Population Gene →
      Option (List (Population Gene) × Population Gene)
  | 0, pops, acc => some (pops, acc)
  | n + 1, pops, acc =>
    match pops.getLast? with
    | none => none
    | some sub =>
      merge_group hashFn n pops.dropLast
        (sub.agents.foldl (fun pop q => pop.insert hashFn q.1 q.2) acc)

/-- One bucket-building round of `populations_from_existing_multillevel`
(evolution.rs lines 76-85): build `k` merged populations, each re-evolved
one iteration block and culled by 75%. -/
def merge_round {Gene Data σ : Type} (hashFn : List Gene → ℕ)
    (E : EvolutionOps Gene Data σ) :
    ℕ → List (Population Gene) → List (Population Gene) → ℕ → Data → ℕ →
      (Agent Gene → Data → ℤ) → σ → Option (List (Population Gene) × σ)
  | 0, _, newPops, _, _, _, _, s => some (newPops, s)
  | k + 1, pops, newPops, spl, data, iterations, gsi, s =>
    match merge_group hashFn spl pops (Population.new_empty false) with
    | none => none
    | some r =>
      let it := run_iterations E r.2 iterations data gsi s
      merge_round hashFn E k r.1 (newPops ++ [E.cull_lowest it.1 (fround 3 4)])
        spl data iterations gsi it.2

/-- `populations_from_existing_multillevel` (evolution.rs lines 62-91): for
each level from `levels - 1` down to 0, group the populations into
`sub_populations_per_level ^ level` buckets, merge, re-evolve and cull each;
finally return the last remaining population (`pop().unwrap()`). -/
def populations_from_existing_multillevel {Gene Data σ : Type}
    (hashFn : List Gene → ℕ) (E : EvolutionOps Gene Data σ) :
    List (Population Gene) → ℕ → ℕ → Data → ℕ →
      (Agent Gene → Data → ℤ) → σ → Option (Population Gene)
  | pops, 0, _, _, _, _, _ => pops.getLast?
  | pops, l + 1, spl, data, iterations, gsi, s =>
    match merge_round hashFn E (spl ^ l) pops [] spl data iterations gsi s with
    | none => none
    | some r =>
      populations_from_existing_multillevel hashFn E r.1 l spl data iterations
        gsi r.2

/-- `population_from_multilevel_sub_populations` (evolution.rs lines 15-34):
seed and evolve `sub_populations_per_level ^ levels` leaf populations, then
reduce them level by level to a single population. -/
def population_from_multilevel_sub_populations {Gene Data σ : Type}
    (hashFn : List Gene → ℕ) (E : EvolutionOps Gene Data σ) (levels spl : ℕ)
    (data : Data) (number_of_genes initial_population_size iterations : ℕ)
    (get_score_index : Agent Gene → Data → ℤ) (s : σ) :
    Option (Population Gene) :=
  let b := build_initial_populations hashFn E (spl ^ levels) data
    number_of_genes initial_population_size iterations get_score_index s
  populations_from_existing_multillevel hashFn E b.1 levels spl data iterations
    get_score_index b.2

/-! ### Concrete instances used by witnesses and counterexamples -/

/-- A concrete content hash for witnesses: the head gene. -/
def hashNat : List ℕ → ℕ :=
  fun g => g.headD 0

/-- A concrete unique-mode population (two agents, register in sync). -/
def pWitness : Population ℕ :=
  ⟨[(1, ⟨[10]⟩), (3, ⟨[30]⟩)], {10, 30}, true⟩

/-- A concrete non-unique population with four ascending slots. -/
def pCull : Population ℕ :=
  ⟨[(1, ⟨[1]⟩), (2, ⟨[2]⟩), (3, ⟨[3]⟩), (4, ⟨[4]⟩)], ∅, false⟩

/-- Lowest-score selection, proportion 0.5, preferred minimum 1. -/
def selLowHalf : Selection :=
  ⟨SelectionType.LowestScore, fround 1 2, 1⟩

/-- RandomAny selection, proportion 0.5, preferred minimum 1. -/
def selRandomHalf : Selection :=
  ⟨SelectionType.RandomAny, fround 1 2, 1⟩

/-- A provider whose scoring function always fails. -/
def errProvider : GeneralScoreProvider ℕ ℕ :=
  ⟨fun _ _ => Except.error "score failed", 1, []⟩

/-- A provider with a cached fitness 40 for hash 7, offset 5. -/
def okProvider : GeneralScoreProvider ℕ ℕ :=
  ⟨fun _ _ => Except.ok 40, 5, [(7, 40)]⟩

/-- A provider with a cached fitness 10 for hash 3, offset 2. -/
def boundsProvider : GeneralScoreProvider ℕ ℕ :=
  ⟨fun _ _ => Except.ok 10, 2, [(3, 10)]⟩

/-- A provider caching the largest `u64` fitness, offset 1. -/
def wrapProvider : GeneralScoreProvider ℕ ℕ :=
  ⟨fun _ _ => Except.ok 0, 1, [(5, 2 ^ 64 - 1)]⟩

/-- A provider caching the largest `u64` fitness, offset 2. -/
def wrapProvider2 : GeneralScoreProvider ℕ ℕ :=
  ⟨fun _ _ => Except.ok 0, 2, [(5, 2 ^ 64 - 1)]⟩

/-! ## Helper lemmas -/

/-- A successful `lookup` pair is a member of the association list. -/
theorem lookup_mem_of_eq_some {α : Type} {l : List (ℤ × α)} {k : ℤ} {v : α}
    (h : l.lookup k = some v) : (k, v) ∈ l := by
  induction l with
  | nil => simp [List.lookup] at h
  | cons p t ih =>
    rw [List.lookup] at h
    by_cases hk : k = p.1
    · simp only [hk, beq_self_eq_true] at h
      cases p
      simp_all
    · have hb : (k == p.1) = false := by simpa using hk
      simp only [hb] at h
      exact List.mem_cons_of_mem _ (ih h)

/-- Looking a key up in the `≥ s` filtrate of an association list. -/
theorem lookup_filter_ge {α : Type} (l : List (ℤ × α)) (t s : ℤ) :
    (l.filter (fun q => decide (s ≤ q.1))).lookup t =
      if s ≤ t then l.lookup t else none := by
  induction l with
  | nil => simp [List.lookup]
  | cons p tl ih =>
    by_cases hp : s ≤ p.1
    · simp only [List.filter_cons, decide_eq_true hp, List.lookup]
      by_cases ht : t = p.1
      · simp [ht, List.lookup, hp]
      · have hb : (t == p.1) = false := by simpa using ht
        simp [hb, ih, List.lookup]
    · have hb : (decide (s ≤ p.1)) = false := by simpa using hp
      simp only [List.filter_cons, hb, Bool.false_eq_true, if_false]
      rw [ih]
      by_cases ht : s ≤ t
      · simp only [if_pos ht]
        have hne : ¬ t = p.1 := by omega
        have hb2 : (t == p.1) = false := by simpa using hne
        rw [List.lookup, hb2]
      · simp [ht]

/-- Every element of `slInsert k v l` is the inserted pair or an element of
`l`. -/
theorem mem_slInsert {α : Type} (k : ℤ) (v : α) (l : List (ℤ × α))
    (q : ℤ × α) (h : q ∈ slInsert k v l) : q = (k, v) ∨ q ∈ l := by
  induction l with
  | nil => simpa [slInsert] using h
  | cons p t ih =>
    rw [slInsert] at h
    by_cases h1 : k < p.1
    · rw [if_pos h1] at h
      simpa using h
    · by_cases h2 : k = p.1
      · rw [if_neg h1, if_pos h2] at h
        rcases List.mem_cons.mp h with h | h
        · exact Or.inl h
        · exact Or.inr (List.mem_cons_of_mem _ h)
      · rw [if_neg h1, if_neg h2] at h
        rcases List.mem_cons.mp h with h | h
        · exact Or.inr (h ▸ List.mem_cons_self _ _)
        · rcases ih h with h3 | h3
          · exact Or.inl h3
          · exact Or.inr (List.mem_cons_of_mem _ h3)

/-- `slInsert` preserves pairwise relations when the inserted pair relates
to every element. -/
theorem pairwise_slInsert {α : Type} {R : (ℤ × α) → (ℤ × α) → Prop}
    (k : ℤ) (v : α) (l : List (ℤ × α)) (hR : List.Pairwise R l)
    (hall : ∀ q ∈ l, R (k, v) q ∧ R q (k, v)) :
    List.Pairwise R (slInsert k v l) := by
  induction l with
  | nil => simp [slInsert]
  | cons p t ih =>
    rw [slInsert]
    have hp := List.pairwise_cons.mp hR
    by_cases h1 : k < p.1
    · rw [if_pos h1]
      exact List.Pairwise.cons (fun q hq => (hall q hq).1) hR
    · by_cases h2 : k = p.1
      · rw [if_neg h1, if_pos h2]
        exact List.Pairwise.cons
          (fun q hq => (hall q (List.mem_cons_of_mem _ hq)).1) hp.2
      · rw [if_neg h1, if_neg h2]
        refine List.Pairwise.cons ?_
          (ih hp.2 (fun q hq => hall q (List.mem_cons_of_mem _ hq)))
        intro q hq
        rcases mem_slInsert k v t q hq with h | h
        · exact h ▸ (hall p (List.mem_cons_self _ _)).2
        · exact hp.1 q h

/-! ## C3 — `rate_to_number` -/

/-- C3 counterexample: `rate_to_number` does not always return the exact
`floor(n * r)`. At `n = 10` and `r` the binary64 value written `0.7`
(`6305039478318694 * 2 ^ -53 = 0.6999999999999999555910790149937…`), the
exact product is `6.99999999999999955…` with floor 6, but the f64
multiplication `10.0 * 0.7` rounds up to exactly `7.0`, so the code returns
7. -/
theorem rate_to_number_not_exact_floor :
    rate_to_number 10 (fround 7 10) 0 = 7
    ∧ Int.floor ((10 : ℚ) * (fround 7 10).toRat) = 6 := by
  constructor
  · decide
  · have h : fround 7 10 = { m := 6305039478318694, e := -53 } := by decide
    rw [h]
    have h2 : ({ m := 6305039478318694, e := -53 } : F64).toRat
        = (6305039478318694 : ℚ) * (2 : ℚ) ^ (-53 : ℤ) := by
      norm_num [F64.toRat]
    rw [h2, Int.floor_eq_iff]
    constructor
    · norm_num
    · norm_num

/-- C3 (amended): if the population is below the preferred minimum,
`rate_to_number` returns the whole population; otherwise it returns the
truncation of the binary64 product `population as f64 * rate`, clamped
below by the preferred minimum — which equals `floor(n * r)` in the claim's
concrete cases `(20, 0.8, 0) = 16`, `(10, 0.75, 0) = 7` and `(4, 0.5, 5) =
4`, but can exceed the exact floor by one when the f64 rounding crosses an
integer (see the counterexample). -/
theorem rate_to_number_spec (n : ℕ) (r : F64) (m : ℕ) :
    (n < m → rate_to_number n r m = n)
    ∧ (m ≤ n →
        rate_to_number n r m = max m (f64mul (F64.ofNat n) r).toUsizeTrunc)
    ∧ rate_to_number 20 (fround 4 5) 0 = 16
    ∧ rate_to_number 10 (fround 3 4) 0 = 7
    ∧ rate_to_number 4 (fround 1 2) 5 = 4 := by
  refine ⟨?_, ?_, by decide, by decide, by decide⟩
  · intro h
    simp [rate_to_number, h]
  · intro h
    simp only [rate_to_number, if_neg (by omega : ¬ n < m)]
    rcases Nat.lt_or_ge (f64mul (F64.ofNat n) r).toUsizeTrunc m with hx | hx
    · rw [if_pos hx]
      exact (max_eq_left (Nat.le_of_lt hx)).symm
    · rw [if_neg (Nat.not_lt.mpr hx)]
      exact (max_eq_right hx).symm

/-- C3 witness: both branches of `rate_to_number_spec` at concrete inputs:
population 3 below minimum 5 returns 3; population 10 at proportion 0.75,
minimum 5 returns the truncated product 7. -/
theorem rate_to_number_spec_witness :
    rate_to_number 3 (fround 3 4) 5 = 3
    ∧ rate_to_number 10 (fround 3 4) 5 =
        max 5 (f64mul (F64.ofNat 10) (fround 3 4)).toUsizeTrunc := by
  constructor
  · exact ((rate_to_number_spec 3 (fround 3 4) 5).1 (by decide)).trans (by decide)
  · exact (rate_to_number_spec 10 (fround 3 4) 5).2.1 (by decide)

/-! ## C8 — collision fallback loop -/

/-- C8: the slot-collision fallback loop terminates for every finite
occupied-slot set and every starting slot — it decrements through `n`
occupied non-zero slots and stops at a slot that is free or zero — and from
a non-negative start it never goes below 0 and never above the start. -/
theorem resolve_slot_terminates_nonneg (occ : Finset ℤ) (score : ℤ) :
    (0 ≤ score → 0 ≤ resolve_slot occ score ∧ resolve_slot occ score ≤ score)
    ∧ ∃ n : ℕ, resolve_slot occ score = score - n
        ∧ (score - n = 0 ∨ score - n ∉ occ)
        ∧ ∀ k : ℕ, k < n → score - k ∈ occ ∧ score - k ≠ 0 := by
  induction score using resolve_slot.induct occ with
  | case1 =>
    rw [resolve_slot]
    simp only [dif_pos rfl]
    exact ⟨fun _ => ⟨le_refl 0, le_refl 0⟩,
      ⟨0, by simp, Or.inl (by simp), fun k hk => absurd hk (by omega)⟩⟩
  | case2 x hx hocc ih =>
    rw [resolve_slot, dif_neg hx, dif_pos hocc]
    obtain ⟨ih1, n, hn, hexit, hall⟩ := ih
    refine ⟨?_, n + 1, ?_, ?_, ?_⟩
    · intro h0
      have := ih1 (by omega)
      omega
    · push_cast
      omega
    · rcases hexit with h | h
      · left; push_cast at h ⊢; omega
      · right
        have he : x - ((n : ℤ) + 1) = (x - 1) - (n : ℤ) := by ring
        push_cast
        rw [he]
        exact h
    · intro k hk
      match k with
      | 0 => simpa using ⟨hocc, hx⟩
      | k + 1 =>
        have h2 := hall k (by omega)
        have he : x - ((k : ℤ) + 1) = (x - 1) - (k : ℤ) := by ring
        push_cast
        rw [he]
        exact h2
  | case3 x hx hocc =>
    rw [resolve_slot, dif_neg hx, dif_neg hocc]
    exact ⟨fun h0 => ⟨h0, le_refl x⟩,
      ⟨0, by simp, Or.inr (by simpa using hocc), fun k hk => absurd hk (by omega)⟩⟩

/-- C8 witness: with slots 1 and 2 occupied, a start at 2 resolves to the
non-negative slot 0, within the claimed bounds. -/
theorem resolve_slot_witness :
    0 ≤ resolve_slot ({1, 2} : Finset ℤ) 2
    ∧ resolve_slot ({1, 2} : Finset ℤ) 2 ≤ 2 := by
  exact (resolve_slot_terminates_nonneg ({1, 2} : Finset ℤ) 2).1 (by omega)

/-! ## C6 — `cull_all_below` -/

/-- C6: `cull_all_below s` removes exactly the agents at slots `< s` and
preserves every agent at a slot `≥ s` (lookup of any slot `t` is unchanged
for `s ≤ t` and empty otherwise), and in unique mode the resulting register
holds exactly the hashes of the surviving agents. -/
theorem cull_all_below_exact {Gene : Type} (hashFn : List Gene → ℕ)
    (p : Population Gene) (s t : ℤ) (h : ℕ) :
    ((p.cull_all_below hashFn s).get t = if s ≤ t then p.get t else none)
    ∧ (p.unique_agents = true →
        (h ∈ (p.cull_all_below hashFn s).register ↔
          ∃ q, q ∈ (p.cull_all_below hashFn s).agents ∧ hashFn q.2.genes = h)) := by
  constructor
  · simp only [Population.cull_all_below, Population.get]
    exact lookup_filter_ge p.agents t s
  · intro hu
    simp only [Population.cull_all_below, hu, if_true, List.mem_toFinset,
      List.mem_map]

/-- C6 witness: culling `pWitness` below slot 2 empties slot 1, and its
register afterwards holds a hash exactly when a surviving agent carries it. -/
theorem cull_all_below_exact_witness :
    ((pWitness.cull_all_below hashNat 2).get 1 = none)
    ∧ (30 ∈ (pWitness.cull_all_below hashNat 2).register ↔
        ∃ q, q ∈ (pWitness.cull_all_below hashNat 2).agents
          ∧ hashNat q.2.genes = 30) := by
  have h := cull_all_below_exact hashNat pWitness 2 1 30
  refine ⟨?_, h.2 rfl⟩
  have h1 := h.1
  simpa using h1

/-! ## C5 — Population read operations -/

/-- C5 counterexample: `get_random_score` on the empty population panics
(`rng.gen_range(0, 0)` aborts), so not every public Population operation
runs to completion on every state. -/
theorem get_random_score_empty_panics :
    (Population.new_empty true : Population ℕ).get_random_score 0 = none := by
  rfl

/-- C5 (amended): the listed Population operations never fail except
`get_random_score` on an empty population: a lookup of an unoccupied slot
returns an empty result from `get`, `remove` and `contains_score`;
`get_random_score` returns an occupied slot on every non-empty population
and panics exactly on the empty one, whose `get_scores` and `get_agents`
are empty. -/
theorem population_reads_never_fail {Gene : Type} (hashFn : List Gene → ℕ)
    (p : Population Gene) (s : ℤ) (j : ℕ) :
    (p.contains_score s = false → p.get s = none ∧ p.remove hashFn s = (p, none))
    ∧ (p.get s = none ↔ p.contains_score s = false)
    ∧ (p.len ≠ 0 → ∃ v, p.get_random_score j = some v ∧ v ∈ p.get_scores)
    ∧ (p.len = 0 → p.get_random_score j = none ∧ p.get_scores = []
        ∧ p.get_agents = []) := by
  refine ⟨?_, ?_, ?_, ?_⟩
  · intro hc
    cases hl : p.agents.lookup s with
    | some a =>
      rw [Population.contains_score, hl] at hc
      simp at hc
    | none =>
      constructor
      · simpa [Population.get] using hl
      · simp [Population.remove, hl]
  · cases hl : p.agents.lookup s <;>
      simp [Population.get, Population.contains_score, hl]
  · intro h
    have hlt : j % p.len < p.get_scores.length := by
      have : p.get_scores.length = p.len := by
        simp [Population.get_scores, Population.len]
      rw [this]
      exact Nat.mod_lt _ (Nat.pos_of_ne_zero h)
    refine ⟨p.get_scores[j % p.len], ?_, List.getElem_mem hlt⟩
    rw [Population.get_random_score, if_neg h]
    exact List.getElem?_eq_getElem hlt
  · intro h
    have ha : p.agents = [] := List.length_eq_zero.mp h
    refine ⟨?_, ?_, ?_⟩
    · rw [Population.get_random_score, if_pos h]
    · simp [Population.get_scores, ha]
    · simp [Population.get_agents, ha]

/-- C5 witness: on the concrete two-agent population, the unoccupied slot 2
yields empty results and `get_random_score` succeeds. -/
theorem population_reads_witness :
    (pWitness.get 2 = none ∧ pWitness.remove hashNat 2 = (pWitness, none))
    ∧ ∃ v, pWitness.get_random_score 5 = some v ∧ v ∈ pWitness.get_scores := by
  have h := population_reads_never_fail hashNat pWitness 2 5
  exact ⟨h.1 (by decide), h.2.2.1 (by decide)⟩

/-! ## C2 — scoring failures -/

/-- Auxiliary for C2: an agent whose hash is uncached and errors under the
scoring function (as does every same-hashed agent of the batch) is absent
from the batch `evaluate_scores` returns. -/
theorem evaluate_scores_drops {Gene Data : Type} (hashFn : List Gene → ℕ)
    (data : Data) (a : Agent Gene) :
    ∀ (agents : List (Agent Gene)) (sp : GeneralScoreProvider Gene Data),
      sp.score_cache.lookup (hashFn a.genes) = none →
      (∀ b ∈ agents, hashFn b.genes = hashFn a.genes →
        ∃ e, sp.scoring_function b data = Except.error e) →
      a ∉ (sp.evaluate_scores hashFn agents data).2 := by
  intro agents
  induction agents with
  | nil =>
    intro sp _ _
    simp [GeneralScoreProvider.evaluate_scores]
  | cons x rest ih =>
    intro sp hl hall
    rw [GeneralScoreProvider.evaluate_scores]
    by_cases hx : (sp.score_cache.lookup (hashFn x.genes)).isSome
    · rw [if_pos hx]
      intro hmem
      rcases List.mem_cons.mp hmem with h | h
      · rw [h] at hl
        rw [hl] at hx
        simp at hx
      · exact ih sp hl (fun b hb => hall b (List.mem_cons_of_mem _ hb)) h
    · rw [if_neg hx]
      cases hsf : sp.scoring_function x data with
      | ok v =>
        have hxa : hashFn x.genes ≠ hashFn a.genes := by
          intro hEq
          rcases hall x (List.mem_cons_self _ _) hEq with ⟨e, he⟩
          rw [hsf] at he
          cases he
        intro hmem
        rcases List.mem_cons.mp hmem with h | h
        · rw [h] at hxa
          exact hxa rfl
        · refine ih { sp with
            score_cache := (hashFn x.genes, v) :: sp.score_cache } ?_ ?_ h
          · rw [List.lookup]
            have hb : (hashFn a.genes == hashFn x.genes) = false := by
              simpa using fun hEq => hxa hEq.symm
            rw [hb]
            exact hl
          · intro b hb hEq
            exact hall b (List.mem_cons_of_mem _ hb) hEq
      | error e =>
        exact ih sp hl (fun b hb => hall b (List.mem_cons_of_mem _ hb))

/-- C2 counterexample: an uncached agent whose scoring function fails makes
`get_score` panic (fitness.rs line 97 unwraps the scoring result), so the
error IS surfaced as a run failure on the `get_score` path, contrary to the
claim. -/
theorem get_score_uncached_error_panics :
    errProvider.get_score hashNat ⟨[0]⟩ 0 0 = none := by
  rfl

/-- C2 (amended): an agent on which the scoring function fails is silently
dropped from the batch `evaluate_scores` returns (no error reaches the
caller on that path), but `get_score` on an agent whose fitness is not yet
cached unwraps the scoring result: a scoring error there is a panic, not a
silent drop. -/
theorem scoring_failure_is_dropped {Gene Data : Type} (hashFn : List Gene → ℕ)
    (sp : GeneralScoreProvider Gene Data) (agents : List (Agent Gene))
    (data : Data) (a : Agent Gene) (j : ℕ) :
    (sp.score_cache.lookup (hashFn a.genes) = none →
      (∀ b ∈ agents, hashFn b.genes = hashFn a.genes →
        ∃ e, sp.scoring_function b data = Except.error e) →
      a ∉ (sp.evaluate_scores hashFn agents data).2)
    ∧ (sp.score_cache.lookup (hashFn a.genes) = none →
        (∃ e, sp.scoring_function a data = Except.error e) →
        sp.get_score hashFn a data j = none) := by
  constructor
  · exact fun hl hall => evaluate_scores_drops hashFn data a agents sp hl hall
  · rintro hl ⟨e, he⟩
    rw [GeneralScoreProvider.get_score]
    by_cases h0 : (2 * sp.offset) % u64size = 0
    · rw [if_pos h0]
    · rw [if_neg h0, hl, he]

/-- C2 witness: a batch holding only the failing agent comes back empty,
and `get_score` on it panics. -/
theorem scoring_failure_witness :
    (⟨[0]⟩ : Agent ℕ) ∉ (errProvider.evaluate_scores hashNat [⟨[0]⟩] 0).2
    ∧ errProvider.get_score hashNat ⟨[0]⟩ 0 0 = none := by
  have h := scoring_failure_is_dropped hashNat errProvider [⟨[0]⟩] 0 ⟨[0]⟩ 0
  refine ⟨h.1 rfl ?_, h.2 rfl ⟨"score failed", rfl⟩⟩
  intro b _ _
  exact ⟨"score failed", rfl⟩

/-! ## C4 — `get_score` jitter and cache stability -/

/-- C4 counterexample: with the cached true fitness `f = 2 ^ 64 - 1`,
offset 1 and drawn jitter `j = 1` (a legal draw from `[0, 2)`), the claim's
formula predicts `f + j - offset = 2 ^ 64 - 1` (since `f + j > offset`),
but the `u64` sum `f + j` wraps to 0, which is `≤ offset`, so the code
returns slot 0. -/
theorem get_score_sum_wraps_u64 :
    wrapProvider.get_score hashNat ⟨[5]⟩ 0 1 = some (wrapProvider, 0)
    ∧ ¬ ((2 ^ 64 - 1) + 1 ≤ wrapProvider.offset)
    ∧ (2 ^ 64 - 1) + 1 - wrapProvider.offset ≠ 0 := by
  refine ⟨rfl, by decide, by decide⟩

/-- C4 (amended): for a drawn jitter `j` in `[0, (2 * offset) mod 2 ^ 64)`,
`get_score` returns slot 0 when `f + j ≤ offset` and `f + j - offset`
otherwise, PROVIDED the `u64` sum `f + j` does not wrap (`f + j < 2 ^ 64`);
the true fitness is computed and cached at most once — a cached agent's
provider is returned unchanged, an uncached agent's fitness is stored by a
single cache insertion — and no existing cache entry is ever altered by a
`get_score` call. -/
theorem get_score_jitter_cache_spec {Gene Data : Type}
    (hashFn : List Gene → ℕ) (sp : GeneralScoreProvider Gene Data)
    (a : Agent Gene) (data : Data) (j f : ℕ) :
    (sp.score_cache.lookup (hashFn a.genes) = some f →
      j < (2 * sp.offset) % u64size → f + j < u64size →
      sp.get_score hashFn a data j =
        some (sp, if f + j ≤ sp.offset then 0 else f + j - sp.offset))
    ∧ (sp.score_cache.lookup (hashFn a.genes) = none →
        sp.scoring_function a data = Except.ok f →
        j < (2 * sp.offset) % u64size → f + j < u64size →
        sp.get_score hashFn a data j =
          some ({ sp with score_cache := (hashFn a.genes, f) :: sp.score_cache },
                if f + j ≤ sp.offset then 0 else f + j - sp.offset))
    ∧ (∀ sp1 v, sp.get_score hashFn a data j = some (sp1, v) →
        ∀ h w, sp.score_cache.lookup h = some w →
          sp1.score_cache.lookup h = some w) := by
    refine ⟨?_, ?_, ?_⟩
    · intro hl hj hfj
      rw [GeneralScoreProvider.get_score, if_neg (by omega), hl]
      simp only [jitterScore, Nat.mod_eq_of_lt hfj]
    · intro hl hok hj hfj
      rw [GeneralScoreProvider.get_score, if_neg (by omega), hl, hok]
      simp only [jitterScore, Nat.mod_eq_of_lt hfj]
    · intro sp1 v heq h w hw
      rw [GeneralScoreProvider.get_score] at heq
      by_cases h0 : (2 * sp.offset) % u64size = 0
      · rw [if_pos h0] at heq
        cases heq
      · rw [if_neg h0] at heq
        cases hl : sp.score_cache.lookup (hashFn a.genes) with
        | some f0 =>
          rw [hl] at heq
          cases heq
          exact hw
        | none =>
          rw [hl] at heq
          cases hsf : sp.scoring_function a data with
          | ok f0 =>
            rw [hsf] at heq
            cases heq
            rw [List.lookup]
            have hb : (h == hashFn a.genes) = false := by
              simp only [beq_eq_false_iff_ne, ne_eq]
              intro hEq
              rw [hEq, hl] at hw
              cases hw
            rw [hb]
            exact hw
          | error e =>
            rw [hsf] at heq
            cases heq

/-- C4 witness: the cached-fitness case at fitness 40, offset 5, jitter 3:
the provider is unchanged and the slot is `40 + 3 - 5 = 38`; an existing
cache entry survives the call. -/
theorem get_score_jitter_cache_witness :
    okProvider.get_score hashNat ⟨[7]⟩ 0 3 = some (okProvider, 38)
    ∧ (okProvider.get_score hashNat ⟨[7]⟩ 0 3 = some (okProvider, 38) →
        okProvider.score_cache.lookup 7 = some 40) := by
  have h := (get_score_jitter_cache_spec hashNat okProvider ⟨[7]⟩ 0 3 40).1
    rfl (by decide) (by decide)
  constructor
  · rw [h]
    norm_num [okProvider]
  · intro hcall
    exact (get_score_jitter_cache_spec hashNat okProvider ⟨[7]⟩ 0 3 40).2.2
      okProvider 38 hcall 7 40 rfl

/-! ## C10 — `get_score` output bounds -/

/-- C10 counterexample: with cached fitness `f = 2 ^ 64 - 1`, offset 2 and
legal jitter `j = 3 < 2 * offset`, the `u64` sum wraps to 2, which is
`≤ offset`, so the code returns 0 — far below the claimed lower bound
`max(0, f - offset) = 2 ^ 64 - 3`. -/
theorem get_score_bounds_wrap_violation :
    wrapProvider2.get_score hashNat ⟨[5]⟩ 0 3 = some (wrapProvider2, 0)
    ∧ ¬ ((2 ^ 64 - 1) - wrapProvider2.offset ≤ 0) := by
  refine ⟨rfl, by decide⟩

/-- C10 (amended): offset 0 makes the jitter draw `gen_range(0, 0)` panic,
so `offset ≥ 1` is a de-facto precondition; and for `offset ≥ 1`, provided
the `u64` products and sums do not wrap (`2 * offset < 2 ^ 64` and
`f + 2 * offset ≤ 2 ^ 64`), every value `get_score` returns for an agent of
true fitness `f` lies in `[max(0, f - offset), f + offset - 1]` (the lower
bound is `ℕ` truncated subtraction). -/
theorem get_score_offset_bounds {Gene Data : Type} (hashFn : List Gene → ℕ)
    (sp : GeneralScoreProvider Gene Data) (a : Agent Gene) (data : Data)
    (j f : ℕ) :
    (sp.offset = 0 → sp.get_score hashFn a data j = none)
    ∧ (fitnessOf hashFn sp a data = some f → 1 ≤ sp.offset →
        2 * sp.offset < u64size → f + 2 * sp.offset ≤ u64size →
        j < 2 * sp.offset →
        ∀ sp1 v, sp.get_score hashFn a data j = some (sp1, v) →
          f - sp.offset ≤ v ∧ v ≤ f + sp.offset - 1) := by
  constructor
  · intro h0
    rw [GeneralScoreProvider.get_score, if_pos (by simp [h0, u64size])]
  · intro hf hoff hW hfW hj sp1 v heq
    rw [GeneralScoreProvider.get_score,
      if_neg (by rw [Nat.mod_eq_of_lt hW]; omega)] at heq
    rw [fitnessOf] at hf
    have hfj : f + j < u64size := by omega
    cases hl : sp.score_cache.lookup (hashFn a.genes) with
    | some f0 =>
      rw [hl] at heq hf
      cases hf
      cases heq
      simp only [jitterScore, Nat.mod_eq_of_lt hfj]
      split <;> omega
    | none =>
      rw [hl] at heq hf
      cases hsf : sp.scoring_function a data with
      | ok f0 =>
        rw [hsf] at heq hf
        cases hf
        cases heq
        simp only [jitterScore, Nat.mod_eq_of_lt hfj]
        split <;> omega
      | error e =>
        rw [hsf] at heq
        cases heq

/-- C10 witness: cached fitness 10, offset 2, jitter 0: the returned slot 8
obeys `10 - 2 ≤ 8 ≤ 10 + 2 - 1`. -/
theorem get_score_offset_bounds_witness :
    (10 : ℕ) - boundsProvider.offset ≤ 8
    ∧ (8 : ℕ) ≤ 10 + boundsProvider.offset - 1 := by
  exact (get_score_offset_bounds hashNat boundsProvider ⟨[3]⟩ 0 0 10).2
    rfl (by decide) (by decide) (by decide) (by decide) boundsProvider 8 rfl

/-! ## C7 — `cull_agents` -/

/-- For a strictly ascending association list, filtering by "key at least
the `n`-th key" is exactly dropping the first `n` entries. -/
theorem filter_ge_nth_drop {α : Type} :
    ∀ (l : List (ℤ × α)) (n : ℕ) (hn : n < (l.map Prod.fst).length),
      List.Pairwise (fun a b => a < b) (l.map Prod.fst) →
      l.filter (fun q => decide ((l.map Prod.fst).get ⟨n, hn⟩ ≤ q.1)) = l.drop n := by
  intro l
  induction l with
  | nil =>
    intro n hn
    simp at hn
  | cons p t ih =>
    intro n hn hpw
    have hhead := (List.pairwise_cons.mp hpw).1
    match n with
    | 0 =>
      simp only [List.map_cons, List.get, List.drop_zero]
      apply List.filter_eq_self.mpr
      intro q hq
      rcases List.mem_cons.mp hq with h | h
      · rw [h]
        simp
      · have := hhead q.1 (List.mem_map_of_mem Prod.fst h)
        simp only [decide_eq_true_eq]
        omega
    | n + 1 =>
      have hn2 : n < (t.map Prod.fst).length := by simpa using hn
      have hget : ((p :: t).map Prod.fst).get ⟨n + 1, hn⟩
          = (t.map Prod.fst).get ⟨n, hn2⟩ := rfl
      rw [List.filter_cons]
      have hkey : p.1 < (t.map Prod.fst).get ⟨n, hn2⟩ :=
        hhead _ (List.get_mem _ _ _)
      rw [hget]
      have hdec : decide ((t.map Prod.fst).get ⟨n, hn2⟩ ≤ p.1) = false := by
        simp only [decide_eq_false_iff_not]
        omega
      rw [hdec]
      simp only [Bool.false_eq_true, if_false, List.drop_succ_cons]
      exact ih n hn2 (List.pairwise_cons.mp hpw).2

/-- C7 counterexample: a cull `Operation` with RandomAny selection returns
normally (a no-op) whenever the selection count reaches the population
size — here on the empty population, where `count = 0 ≥ len = 0` triggers
the early return before the panicking match arm — so RandomAny culls are
not always a panic. -/
theorem cull_random_any_normal_return :
    cull_agents hashNat (Population.new_empty false) selRandomHalf
      = some (Population.new_empty false) := by
  rfl

/-- C7 (amended): for every population and cull selection, when
`count = Selection.count(population)` reaches the population size the cull
returns the population unchanged (for every selection kind, RandomAny
included); when `count < len`, Lowest-score removes exactly the first
`count` agents in ascending slot order, and RandomAny panics. -/
theorem cull_agents_spec {Gene : Type} (hashFn : List Gene → ℕ)
    (p : Population Gene) (sel : Selection) :
    (p.len ≤ sel.count p → cull_agents hashFn p sel = some p)
    ∧ (sel.selection_type = SelectionType.LowestScore → sel.count p < p.len →
        List.Pairwise (fun a b => a < b) p.get_scores →
        ∃ q, cull_agents hashFn p sel = some q
          ∧ q.agents = p.agents.drop (sel.count p))
    ∧ (sel.selection_type = SelectionType.RandomAny → sel.count p < p.len →
        cull_agents hashFn p sel = none) := by
  have hlen : p.get_scores.length = p.len := by
    simp [Population.get_scores, Population.len]
  refine ⟨?_, ?_, ?_⟩
  · intro h
    simp only [cull_agents]
    rw [dif_pos (by omega : p.get_scores.length ≤ sel.count p)]
  · intro hsel hlt hpw
    simp only [cull_agents]
    rw [dif_neg (by omega : ¬ p.get_scores.length ≤ sel.count p), hsel]
    refine ⟨_, rfl, ?_⟩
    simp only [Population.cull_all_below, Population.get_scores]
    exact filter_ge_nth_drop p.agents (sel.count p)
      (by simpa [Population.get_scores, Population.len] using hlt)
      (by simpa [Population.get_scores] using hpw)
  · intro hsel hlt
    simp only [cull_agents]
    rw [dif_neg (by omega : ¬ p.get_scores.length ≤ sel.count p), hsel]

/-- C7 witness: on the four-agent population with Lowest-score selection at
proportion 0.5 (count 2 < 4), the cull keeps exactly the last two agents. -/
theorem cull_agents_spec_witness :
    ∃ q, cull_agents hashNat pCull selLowHalf = some q
      ∧ q.agents = pCull.agents.drop (selLowHalf.count pCull) := by
  exact (cull_agents_spec hashNat pCull selLowHalf).2.1 rfl (by decide) (by decide)

/-! ## C1 — uniqueness invariant -/

/-- Equation lemma: a unique-mode insert of a registered hash is dropped. -/
theorem insert_registered_eq {Gene : Type} (hashFn : List Gene → ℕ)
    (p : Population Gene) (s : ℤ) (a : Agent Gene)
    (hu : p.unique_agents = true) (hmem : hashFn a.genes ∈ p.register) :
    p.insert hashFn s a = p := by
  simp [Population.insert, hu, hmem]

/-- Equation lemma: a unique-mode insert of an unregistered hash registers
it and places the agent. -/
theorem insert_unregistered_eq {Gene : Type} (hashFn : List Gene → ℕ)
    (p : Population Gene) (s : ℤ) (a : Agent Gene)
    (hu : p.unique_agents = true) (hmem : hashFn a.genes ∉ p.register) :
    p.insert hashFn s a =
      { p with register := Insert.insert (hashFn a.genes) p.register,
               agents := slInsert s a p.agents } := by
  simp [Population.insert, hu, hmem]

/-- Equation lemma: removing an occupied slot in unique mode erases the
occupant's hash. -/
theorem remove_occupied_eq {Gene : Type} (hashFn : List Gene → ℕ)
    (p : Population Gene) (s : ℤ) (a : Agent Gene)
    (hu : p.unique_agents = true) (hl : p.agents.lookup s = some a) :
    p.remove hashFn s =
      ({ p with agents := slErase s p.agents,
                register := p.register.erase (hashFn a.genes) }, some a) := by
  simp [Population.remove, hu, hl]

/-- Equation lemma: culling in unique mode rebuilds the register from the
survivors. -/
theorem cull_all_below_unique_eq {Gene : Type} (hashFn : List Gene → ℕ)
    (p : Population Gene) (s : ℤ) (hu : p.unique_agents = true) :
    p.cull_all_below hashFn s =
      { p with agents := p.agents.filter (fun q => decide (s ≤ q.1)),
               register := ((p.agents.filter (fun q => decide (s ≤ q.1))).map
                 (fun q => hashFn q.2.genes)).toFinset } := by
  simp [Population.cull_all_below, hu]

/-- Auxiliary for C1: one operation on a unique-mode population preserves
the flag, the pairwise distinctness of present hashes, and the register's
coverage of present hashes. -/
theorem applyOp_keeps_invariant {Gene : Type} (hashFn : List Gene → ℕ)
    (op : POp Gene) (p : Population Gene) (hu : p.unique_agents = true)
    (hpw : List.Pairwise (fun q r => hashFn q.2.genes ≠ hashFn r.2.genes) p.agents)
    (hreg : ∀ q ∈ p.agents, hashFn q.2.genes ∈ p.register) :
    (applyOp hashFn p op).unique_agents = true
    ∧ List.Pairwise (fun q r => hashFn q.2.genes ≠ hashFn r.2.genes)
        (applyOp hashFn p op).agents
    ∧ ∀ q ∈ (applyOp hashFn p op).agents,
        hashFn q.2.genes ∈ (applyOp hashFn p op).register := by
  cases op with
  | insert s a =>
    simp only [applyOp]
    by_cases hmem : hashFn a.genes ∈ p.register
    · rw [insert_registered_eq hashFn p s a hu hmem]
      exact ⟨hu, hpw, hreg⟩
    · rw [insert_unregistered_eq hashFn p s a hu hmem]
      refine ⟨hu, ?_, ?_⟩
      · refine pairwise_slInsert s a p.agents hpw ?_
        intro q hq
        have hqr : hashFn q.2.genes ∈ p.register := hreg q hq
        constructor
        · intro hEq
          exact hmem (by rw [hEq]; exact hqr)
        · intro hEq
          exact hmem (by rw [← hEq]; exact hqr)
      · intro q hq
        rcases mem_slInsert s a p.agents q hq with h | h
        · rw [h]
          exact Finset.mem_insert_self _ _
        · exact Finset.mem_insert_of_mem (hreg q h)
  | remove s =>
    simp only [applyOp]
    cases hl : p.agents.lookup s with
    | none =>
      have hr : p.remove hashFn s = (p, none) := by
        simp [Population.remove, hl]
      rw [hr]
      exact ⟨hu, hpw, hreg⟩
    | some a =>
      rw [remove_occupied_eq hashFn p s a hu hl]
      simp only [slErase]
      refine ⟨hu, hpw.sublist (List.filter_sublist _), ?_⟩
      intro q hq
      have hqmem : q ∈ p.agents := List.mem_of_mem_filter hq
      have hqkey : q.1 ≠ s := by simpa using List.of_mem_filter hq
      apply Finset.mem_erase.mpr
      refine ⟨?_, hreg q hqmem⟩
      have hsa : (s, a) ∈ p.agents := lookup_mem_of_eq_some hl
      have hne : q ≠ (s, a) := by
        intro hEq
        rw [hEq] at hqkey
        exact hqkey rfl
      have hsymm : Symmetric (fun (q r : ℤ × Agent Gene) =>
          hashFn q.2.genes ≠ hashFn r.2.genes) :=
        fun x y hxy hEq => hxy hEq.symm
      exact hpw.forall hsymm hqmem hsa hne
  | cullAllBelow s =>
    simp only [applyOp]
    rw [cull_all_below_unique_eq hashFn p s hu]
    refine ⟨hu, hpw.sublist (List.filter_sublist _), ?_⟩
    intro q hq
    rw [List.mem_toFinset]
    exact List.mem_map.mpr ⟨q, hq, rfl⟩

/-- Auxiliary for C1: the invariant holds after any operation sequence. -/
theorem applyOps_keep_invariant {Gene : Type} (hashFn : List Gene → ℕ)
    (ops : List (POp Gene)) :
    ∀ (p : Population Gene), p.unique_agents = true →
      List.Pairwise (fun q r => hashFn q.2.genes ≠ hashFn r.2.genes) p.agents →
      (∀ q ∈ p.agents, hashFn q.2.genes ∈ p.register) →
      (applyOps hashFn ops p).unique_agents = true
      ∧ List.Pairwise (fun q r => hashFn q.2.genes ≠ hashFn r.2.genes)
          (applyOps hashFn ops p).agents
      ∧ ∀ q ∈ (applyOps hashFn ops p).agents,
          hashFn q.2.genes ∈ (applyOps hashFn ops p).register := by
  induction ops with
  | nil =>
    intro p hu hpw hreg
    exact ⟨hu, hpw, hreg⟩
  | cons op ops ih =>
    intro p hu hpw hreg
    have h := applyOp_keeps_invariant hashFn op p hu hpw hreg
    exact ih (applyOp hashFn p op) h.1 h.2.1 h.2.2

/-- C1 counterexample: on a unique-mode population, inserting agent `[1]`
at slot 0 and then agent `[2]` at the same occupied slot 0 leaves one agent
in the slot map but two hashes in the register — the overwritten occupant's
hash is never unregistered, so the register size does not equal the agent
count. -/
theorem insert_overwrite_register_desync :
    (applyOps hashNat [POp.insert 0 ⟨[1]⟩, POp.insert 0 ⟨[2]⟩]
        (Population.new_empty true)).register.card = 2
    ∧ (applyOps hashNat [POp.insert 0 ⟨[1]⟩, POp.insert 0 ⟨[2]⟩]
        (Population.new_empty true)).agents.length = 1 := by
  decide

/-- C1 (amended): for every unique-mode population built by any sequence of
insert, remove and cull_all_below operations, no two simultaneously-present
agents have equal gene-sequence hashes, and the register contains the hash
of every present agent — so its size is at least (but, after an insert at
an already-occupied slot, not necessarily equal to) the number of agents in
the slot map. -/
theorem unique_population_register_invariant {Gene : Type}
    (hashFn : List Gene → ℕ) (ops : List (POp Gene)) :
    List.Pairwise (fun q r => hashFn q.2.genes ≠ hashFn r.2.genes)
      (applyOps hashFn ops (Population.new_empty true)).agents
    ∧ (∀ q ∈ (applyOps hashFn ops (Population.new_empty true)).agents,
        hashFn q.2.genes ∈ (applyOps hashFn ops (Population.new_empty true)).register)
    ∧ (applyOps hashFn ops (Population.new_empty true)).agents.length
        ≤ (applyOps hashFn ops (Population.new_empty true)).register.card := by
  have h := applyOps_keep_invariant hashFn ops (Population.new_empty true) rfl
    (by simp [Population.new_empty]) (by simp [Population.new_empty])
  refine ⟨h.2.1, h.2.2, ?_⟩
  have hnd : ((applyOps hashFn ops (Population.new_empty true)).agents.map
      (fun q => hashFn q.2.genes)).Nodup :=
    h.2.1.map _ (fun a b hab => hab)
  have hsub : ((applyOps hashFn ops (Population.new_empty true)).agents.map
      (fun q => hashFn q.2.genes)).toFinset
      ⊆ (applyOps hashFn ops (Population.new_empty true)).register := by
    intro x hx
    rcases List.mem_map.mp (List.mem_toFinset.mp hx) with ⟨q, hq, rfl⟩
    exact h.2.2 q hq
  calc (applyOps hashFn ops (Population.new_empty true)).agents.length
      = ((applyOps hashFn ops (Population.new_empty true)).agents.map
          (fun q => hashFn q.2.genes)).length := by simp
    _ = ((applyOps hashFn ops (Population.new_empty true)).agents.map
          (fun q => hashFn q.2.genes)).toFinset.card :=
        (List.toFinset_card_of_nodup hnd).symm
    _ ≤ (applyOps hashFn ops (Population.new_empty true)).register.card :=
        Finset.card_le_card hsub

/-- C1 witness: the invariant at a concrete operation sequence (insert two
distinct agents, remove one, cull): agent count never exceeds register
size. -/
theorem unique_population_register_witness :
    (applyOps hashNat [POp.insert 3 ⟨[1]⟩, POp.insert 5 ⟨[2]⟩, POp.remove 3,
        POp.cullAllBelow 4] (Population.new_empty true)).agents.length
      ≤ (applyOps hashNat [POp.insert 3 ⟨[1]⟩, POp.insert 5 ⟨[2]⟩, POp.remove 3,
        POp.cullAllBelow 4] (Population.new_empty true)).register.card := by
  exact (unique_population_register_invariant hashNat _).2.2

/-! ## C9 — multilevel orchestration at `levels = 0` -/

/-- C9: with `levels = 0`, `sub_populations_per_level ^ 0 = 1` leaf
population is seeded and iterated, no merge round runs, and that single
seeded-and-iterated population is returned — for every behaviour of the
external operator family and random source. -/
theorem multilevel_levels_zero {Gene Data σ : Type} (hashFn : List Gene → ℕ)
    (E : EvolutionOps Gene Data σ) (spl : ℕ) (data : Data)
    (number_of_genes initial_population_size iterations : ℕ)
    (get_score_index : Agent Gene → Data → ℤ) (s : σ) :
    population_from_multilevel_sub_populations hashFn E 0 spl data
        number_of_genes initial_population_size iterations get_score_index s =
      some (run_iterations E
        (create_population hashFn E initial_population_size data
          number_of_genes get_score_index s).1
        iterations data get_score_index
        (create_population hashFn E initial_population_size data
          number_of_genes get_score_index s).2).1 := by
  rfl

end Aristeia
